import Mathlib

/-!
# Verification of the `render` vector-math and pooling library

Shallow embedding of `src/render.ts`: allocation-free vec3 arithmetic
(`set3`, `copy3`, `add3To`, `sub3To`, `scale3To`, `cross3To`, `lenSq3`,
`normalize3InPlace`) and the fixed-capacity LIFO `Vec3Pool` with
`acquire` / `release` / `reset` / `available`, plus the scoped helper
`withVec3Frame`.

JavaScript numbers are modelled as real numbers; a mutable number array
is modelled as a `List ℝ` with `List.getD i 0` for reads `v[i]` and
`List.set i x` for in-range writes `v[i] = x` (all claims constrain the
arrays to length ≥ 3, where `List.set` coincides with the JS write).
The `*To` functions mutate only their `out` argument in the source, so
they are embedded as functions returning the new value of `out`; the
source of `cross3To` and `normalize3InPlace` reads every input component
into a local before the first write, which the embedding mirrors by
reading all components from the parameter values.
-/

namespace render

/-- A mutable 3D vector represented by a 3-slot number array. -/
abbrev Vec3 := List ℝ

/-- Source `dot(vec1, vec2)`: dot product of the first 3 components. -/
def dot (vec1 vec2 : List ℝ) : ℝ :=
  vec1.getD 0 0 * vec2.getD 0 0 + vec1.getD 1 0 * vec2.getD 1 0 +
    vec1.getD 2 0 * vec2.getD 2 0

/-- Source `cross(vec1, vec2)`: 2D cross (z-component from XY vectors). -/
def cross (vec1 vec2 : List ℝ) : ℝ :=
  vec1.getD 0 0 * vec2.getD 1 0 - vec1.getD 1 0 * vec2.getD 0 0

/-- Source `set3(out, x, y, z)`: writes values into an existing vec3. -/
def set3 (out : Vec3) (x y z : ℝ) : Vec3 :=
  ((out.set 0 x).set 1 y).set 2 z

/-- Source `copy3(out, from)`: copies one vec3 into another preallocated vec3. -/
def copy3 (out source : Vec3) : Vec3 :=
  ((out.set 0 (source.getD 0 0)).set 1 (source.getD 1 0)).set 2 (source.getD 2 0)

/-- Source `dot3At(a, ai, b, bi)`: dot product on packed arrays. -/
def dot3At (a : List ℝ) (ai : ℕ) (b : List ℝ) (bi : ℕ) : ℝ :=
  a.getD ai 0 * b.getD bi 0 + a.getD (ai + 1) 0 * b.getD (bi + 1) 0 +
    a.getD (ai + 2) 0 * b.getD (bi + 2) 0

/-- Source `add3To(out, a, b)`: out = a + b. -/
def add3To (out a b : Vec3) : Vec3 :=
  ((out.set 0 (a.getD 0 0 + b.getD 0 0)).set 1
      (a.getD 1 0 + b.getD 1 0)).set 2 (a.getD 2 0 + b.getD 2 0)

/-- Source `sub3To(out, a, b)`: out = a - b. -/
def sub3To (out a b : Vec3) : Vec3 :=
  ((out.set 0 (a.getD 0 0 - b.getD 0 0)).set 1
      (a.getD 1 0 - b.getD 1 0)).set 2 (a.getD 2 0 - b.getD 2 0)

/-- Source `scale3To(out, v, s)`: out = v * s. -/
def scale3To (out v : Vec3) (s : ℝ) : Vec3 :=
  ((out.set 0 (v.getD 0 0 * s)).set 1 (v.getD 1 0 * s)).set 2 (v.getD 2 0 * s)

/-- Source `cross3To(out, a, b)`: out = cross(a, b); the source reads all six
input components into locals `ax .. bz` before the first write to `out`. -/
def cross3To (out a b : Vec3) : Vec3 :=
  let ax := a.getD 0 0; let ay := a.getD 1 0; let az := a.getD 2 0
  let bx := b.getD 0 0; let b_y := b.getD 1 0; let bz := b.getD 2 0
  ((out.set 0 (ay * bz - az * b_y)).set 1 (az * bx - ax * bz)).set 2
    (ax * b_y - ay * bx)

/-- Source `lenSq3(v)`: squared length of a vec3. -/
def lenSq3 (v : Vec3) : ℝ :=
  v.getD 0 0 * v.getD 0 0 + v.getD 1 0 * v.getD 1 0 + v.getD 2 0 * v.getD 2 0

/-- Source `normalize3InPlace(v)`: if `lenSq3 v ≤ 0` the vector is returned
unchanged (no division is performed); otherwise each of the first three
components is scaled by `invLen = 1 / sqrt (lenSq3 v)`. -/
noncomputable def normalize3InPlace (v : Vec3) : Vec3 :=
  let lsq := lenSq3 v
  if lsq ≤ 0 then v
  else
    let invLen := 1 / Real.sqrt lsq
    ((v.set 0 (v.getD 0 0 * invLen)).set 1 (v.getD 1 0 * invLen)).set 2
      (v.getD 2 0 * invLen)

/-- State of a `Vec3Pool`: the backing store array and the stack cursor. -/
structure Vec3Pool where
  store : List Vec3
  top : ℕ

/-- Source `new Vec3Pool(capacity)`: pushes `capacity` zero buffers and sets
`top = capacity`. -/
def mkVec3Pool (capacity : ℕ) : Vec3Pool :=
  { store := List.replicate capacity ([0, 0, 0] : Vec3), top := capacity }

/-- Source `acquire()`: if `top > 0`, decrement `top` and return the buffer at
the new `top` index; otherwise return a fresh `[0,0,0]` fallback.
Returns the acquired buffer together with the updated pool state. -/
def Vec3Pool.acquire (p : Vec3Pool) : Vec3 × Vec3Pool :=
  if 0 < p.top then
    (p.store.getD (p.top - 1) [], { p with top := p.top - 1 })
  else
    (([0, 0, 0] : Vec3), p)

/-- Source `release(v)`: if `top < store.length`, store `v` at index `top` and
increment `top`; otherwise drop `v` silently. -/
def Vec3Pool.release (p : Vec3Pool) (v : Vec3) : Vec3Pool :=
  if p.top < p.store.length then
    { store := p.store.set p.top v, top := p.top + 1 }
  else
    p

/-- Source `reset()`: sets `top = store.length`. -/
def Vec3Pool.reset (p : Vec3Pool) : Vec3Pool :=
  { p with top := p.store.length }

/-- Source `available()`: returns `top`. -/
def Vec3Pool.available (p : Vec3Pool) : ℕ :=
  p.top

/-- One call through the public mutating pool interface. -/
inductive PoolOp where
  | acquireOp : PoolOp
  | releaseOp : Vec3 → PoolOp
  | resetOp : PoolOp

/-- Effect of one public pool call on the pool state. -/
def applyOp (p : Vec3Pool) : PoolOp → Vec3Pool
  | .acquireOp => p.acquire.2
  | .releaseOp v => p.release v
  | .resetOp => p.reset

/-- Effect of a sequence of public pool calls on the pool state. -/
def runOps (p : Vec3Pool) : List PoolOp → Vec3Pool
  | [] => p
  | op :: rest => runOps (applyOp p op) rest

/-- A pool state is reachable for capacity `N` if it arises from
`new Vec3Pool(N)` by some sequence of public calls. -/
def Reachable (N : ℕ) (p : Vec3Pool) : Prop :=
  ∃ ops : List PoolOp, p = runOps (mkVec3Pool N) ops

/-- A zero-argument unit of work, as seen by `withVec3Frame`: the
sequence of pool calls it performs before returning or throwing, and
the error it throws, if any. -/
structure Work (E : Type) where
  ops : List PoolOp
  err : Option E

/-- Source `withVec3Frame(pool, work)`: runs `work` inside `try`/`finally`, so
`pool.reset()` executes after the work's pool calls whether the work
returns normally or throws; a thrown error propagates unchanged.
Returns the final pool state and the propagated error, if any. -/
def withVec3Frame {E : Type} (pool : Vec3Pool) (work : Work E) :
    Vec3Pool × Option E :=
  ((runOps pool work.ops).reset, work.err)

/-- State of the pool after `n` successive `acquire()` calls. -/
def acquireMany (p : Vec3Pool) : ℕ → Vec3Pool
  | 0 => p
  | n + 1 => (acquireMany p n).acquire.2

/-! ## Invariant lemmas about the pool -/

theorem store_length_applyOp (p : Vec3Pool) (op : PoolOp) :
    (applyOp p op).store.length = p.store.length := by
  cases op with
  | acquireOp =>
      simp only [applyOp, Vec3Pool.acquire]
      split <;> rfl
  | releaseOp v =>
      simp only [applyOp, Vec3Pool.release]
      split <;> simp
  | resetOp => rfl

theorem store_length_runOps (ops : List PoolOp) (p : Vec3Pool) :
    (runOps p ops).store.length = p.store.length := by
  induction ops generalizing p with
  | nil => rfl
  | cons op rest ih => rw [runOps, ih, store_length_applyOp]

theorem top_le_applyOp (p : Vec3Pool) (op : PoolOp)
    (h : p.top ≤ p.store.length) :
    (applyOp p op).top ≤ (applyOp p op).store.length := by
  cases op with
  | acquireOp =>
      simp only [applyOp, Vec3Pool.acquire]
      split <;> dsimp <;> omega
  | releaseOp v =>
      simp only [applyOp, Vec3Pool.release]
      split
      · dsimp; rw [List.length_set]; omega
      · exact h
  | resetOp => simp [applyOp, Vec3Pool.reset]

theorem top_le_runOps (ops : List PoolOp) (p : Vec3Pool)
    (h : p.top ≤ p.store.length) :
    (runOps p ops).top ≤ (runOps p ops).store.length := by
  induction ops generalizing p with
  | nil => exact h
  | cons op rest ih => exact ih _ (top_le_applyOp p op h)

theorem reachable_invariant {N : ℕ} {p : Vec3Pool} (h : Reachable N p) :
    p.top ≤ p.store.length ∧ p.store.length = N := by
  obtain ⟨ops, rfl⟩ := h
  constructor
  · exact top_le_runOps ops _ (by simp [mkVec3Pool])
  · rw [store_length_runOps]; simp [mkVec3Pool]

theorem acquireMany_mkVec3Pool (N k : ℕ) :
    acquireMany (mkVec3Pool N) k =
      { store := List.replicate N ([0, 0, 0] : Vec3), top := N - k } := by
  induction k with
  | zero => simp [acquireMany, mkVec3Pool]
  | succ k ih =>
      rw [acquireMany, ih]
      simp only [Vec3Pool.acquire]
      split
      · rfl
      · rename_i hle
        dsimp at hle ⊢
        congr 1
        omega

/-! ## Claim theorems -/

/-- C3: `Vec3Pool(N)` starts with `available() == N`; after `N` acquires
`available() == 0`, and the `(N+1)`-th `acquire()` still returns a
3-element buffer equal to `[0,0,0]` (acquire is total: no error path). -/
theorem pool_construct_acquire_exhaust (N : ℕ) :
    (mkVec3Pool N).available = N ∧
    (acquireMany (mkVec3Pool N) N).available = 0 ∧
    (acquireMany (mkVec3Pool N) N).acquire.1 = ([0, 0, 0] : Vec3) ∧
    (acquireMany (mkVec3Pool N) N).acquire.1.length = 3 := by
  refine ⟨rfl, ?_, ?_, ?_⟩
  · rw [acquireMany_mkVec3Pool]; simp [Vec3Pool.available]
  · rw [acquireMany_mkVec3Pool]; simp [Vec3Pool.acquire]
  · rw [acquireMany_mkVec3Pool]; simp [Vec3Pool.acquire]

/-- C4: in every reachable state of a pool built with capacity `N`,
`0 ≤ top ≤ N` (with `top = available()`), the backing store has exactly
`N` entries, and both facts are preserved by each public operation. -/
theorem pool_invariant (N : ℕ) (p : Vec3Pool) (h : Reachable N p) :
    (p.available ≤ N ∧ p.store.length = N) ∧
    ∀ op : PoolOp,
      (applyOp p op).available ≤ N ∧ (applyOp p op).store.length = N := by
  obtain ⟨hle, hlen⟩ := reachable_invariant h
  refine ⟨⟨hlen ▸ hle, hlen⟩, fun op => ?_⟩
  have h1 := top_le_applyOp p op hle
  have h2 := store_length_applyOp p op
  exact ⟨by rw [Vec3Pool.available]; omega, by omega⟩

/-- Witness for C4 at `N = 1`, `p = mkVec3Pool 1`. -/
theorem pool_invariant_witness :
    Reachable 1 (mkVec3Pool 1) ∧
      (((mkVec3Pool 1).available ≤ 1 ∧ (mkVec3Pool 1).store.length = 1) ∧
        ∀ op : PoolOp,
          (applyOp (mkVec3Pool 1) op).available ≤ 1 ∧
            (applyOp (mkVec3Pool 1) op).store.length = 1) :=
  ⟨⟨[], rfl⟩, pool_invariant 1 (mkVec3Pool 1) ⟨[], rfl⟩⟩

/-- C5: `reset()` restores `available() == capacity` in every reachable
state, regardless of the prior acquire/release history. -/
theorem pool_reset_available (N : ℕ) (p : Vec3Pool) (h : Reachable N p) :
    p.reset.available = N := by
  have hlen := (reachable_invariant h).2
  simp [Vec3Pool.reset, Vec3Pool.available, hlen]

/-- Witness for C5 at `N = 2` and the state after one acquire. -/
theorem pool_reset_available_witness :
    Reachable 2 (runOps (mkVec3Pool 2) [PoolOp.acquireOp]) ∧
      (runOps (mkVec3Pool 2) [PoolOp.acquireOp]).reset.available = 2 :=
  ⟨⟨[PoolOp.acquireOp], rfl⟩,
    pool_reset_available 2 _ ⟨[PoolOp.acquireOp], rfl⟩⟩

/-- C8: releasing into a full pool (`available() == capacity`) leaves
the pool state — cursor and stored buffers — entirely unchanged; `v`
is silently dropped. -/
theorem pool_release_full_noop (N : ℕ) (p : Vec3Pool) (v : Vec3)
    (h : Reachable N p) (hfull : p.available = N) : p.release v = p := by
  have hlen := (reachable_invariant h).2
  rw [Vec3Pool.available] at hfull
  rw [Vec3Pool.release, if_neg]
  omega

/-- Witness for C8: a freshly built pool of capacity 2 is full. -/
theorem pool_release_full_noop_witness :
    Reachable 2 (mkVec3Pool 2) ∧ (mkVec3Pool 2).available = 2 ∧
      (mkVec3Pool 2).release ([1, 2, 3] : Vec3) = mkVec3Pool 2 :=
  ⟨⟨[], rfl⟩, rfl,
    pool_release_full_noop 2 (mkVec3Pool 2) ([1, 2, 3] : Vec3) ⟨[], rfl⟩ rfl⟩

/-- C9: when the pool is not full, `acquire()` immediately after
`release(v)` hands back exactly the buffer `v` (LIFO discipline). -/
theorem pool_release_acquire_lifo (N : ℕ) (p : Vec3Pool) (v : Vec3)
    (h : Reachable N p) (hroom : p.available < N) :
    (p.release v).acquire.1 = v := by
  obtain ⟨hle, hlen⟩ := reachable_invariant h
  rw [Vec3Pool.available] at hroom
  have hlt : p.top < p.store.length := by omega
  rw [Vec3Pool.release, if_pos hlt, Vec3Pool.acquire, if_pos (by simp)]
  simp only [Nat.add_sub_cancel]
  rw [List.getD_eq_getElem?_getD, List.getElem?_set_self]
  · simp
  · simpa using hlt

/-- Witness for C9 at a capacity-1 pool emptied by one acquire. -/
theorem pool_release_acquire_lifo_witness :
    Reachable 1 (runOps (mkVec3Pool 1) [PoolOp.acquireOp]) ∧
      (runOps (mkVec3Pool 1) [PoolOp.acquireOp]).available < 1 ∧
      ((runOps (mkVec3Pool 1) [PoolOp.acquireOp]).release
          ([4, 5, 6] : Vec3)).acquire.1 = ([4, 5, 6] : Vec3) :=
  ⟨⟨[PoolOp.acquireOp], rfl⟩, by decide,
    pool_release_acquire_lifo 1 _ ([4, 5, 6] : Vec3)
      ⟨[PoolOp.acquireOp], rfl⟩ (by decide)⟩

/-- C1 counterexample: in the reachable state of a capacity-1 pool after
one acquire (`available() == 0`, exhausted), `release(acquire())` leaves
`available() == 1`, not the prior value `0`: the exhausted acquire
returns a fresh fallback buffer without moving the cursor, and the
release then pushes that extra buffer. -/
theorem pool_roundtrip_exhausted_cex :
    Reachable 1 (runOps (mkVec3Pool 1) [PoolOp.acquireOp]) ∧
      (runOps (mkVec3Pool 1) [PoolOp.acquireOp]).available = 0 ∧
      ¬(((runOps (mkVec3Pool 1) [PoolOp.acquireOp]).acquire.2.release
            (runOps (mkVec3Pool 1) [PoolOp.acquireOp]).acquire.1).available =
          (runOps (mkVec3Pool 1) [PoolOp.acquireOp]).available) :=
  ⟨⟨[PoolOp.acquireOp], rfl⟩, by decide, by decide⟩

/-- C1 (amended): in any reachable state with `available() > 0`,
`release(acquire())` restores `available()` to its prior value. -/
theorem pool_roundtrip_restores_available (N : ℕ) (p : Vec3Pool)
    (h : Reachable N p) (hpos : 0 < p.available) :
    (p.acquire.2.release p.acquire.1).available = p.available := by
  obtain ⟨hle, hlen⟩ := reachable_invariant h
  rw [Vec3Pool.available] at hpos ⊢
  rw [Vec3Pool.acquire, if_pos hpos]
  dsimp
  rw [Vec3Pool.release, if_pos (by dsimp; omega)]
  dsimp [Vec3Pool.available]
  omega

/-- Witness for the amended C1 at a freshly built capacity-1 pool. -/
theorem pool_roundtrip_restores_available_witness :
    Reachable 1 (mkVec3Pool 1) ∧ 0 < (mkVec3Pool 1).available ∧
      ((mkVec3Pool 1).acquire.2.release
          (mkVec3Pool 1).acquire.1).available = (mkVec3Pool 1).available :=
  ⟨⟨[], rfl⟩, by decide,
    pool_roundtrip_restores_available 1 (mkVec3Pool 1) ⟨[], rfl⟩ (by decide)⟩

/-- C2: after `withVec3Frame(pool, work)` finishes, `available()` equals
the capacity the pool was built with, whether the work returned normally
(`work.err = none`) or threw; the thrown error propagates unchanged to
the caller. -/
theorem withVec3Frame_resets_and_propagates {E : Type} (N : ℕ)
    (p : Vec3Pool) (h : Reachable N p) (work : Work E) :
    (withVec3Frame p work).1.available = N ∧
      (withVec3Frame p work).2 = work.err := by
  refine ⟨?_, rfl⟩
  have hlen := (reachable_invariant h).2
  show ((runOps p work.ops).reset).available = N
  rw [Vec3Pool.reset, Vec3Pool.available]
  rw [store_length_runOps, hlen]

/-- Witness for C2: capacity-2 pool, a work that acquires twice and
releases once before throwing the error `37`. -/
theorem withVec3Frame_resets_and_propagates_witness :
    Reachable 2 (mkVec3Pool 2) ∧
      (withVec3Frame (mkVec3Pool 2)
            ⟨[PoolOp.acquireOp, PoolOp.acquireOp,
              PoolOp.releaseOp ([7, 8, 9] : Vec3)], some 37⟩).1.available = 2 ∧
      (withVec3Frame (mkVec3Pool 2)
            ⟨[PoolOp.acquireOp, PoolOp.acquireOp,
              PoolOp.releaseOp ([7, 8, 9] : Vec3)], some 37⟩).2 =
        some (37 : ℕ) :=
  ⟨⟨[], rfl⟩,
    (withVec3Frame_resets_and_propagates 2 (mkVec3Pool 2) ⟨[], rfl⟩
        ⟨[PoolOp.acquireOp, PoolOp.acquireOp,
          PoolOp.releaseOp ([7, 8, 9] : Vec3)], some 37⟩).1,
    (withVec3Frame_resets_and_propagates 2 (mkVec3Pool 2) ⟨[], rfl⟩
        ⟨[PoolOp.acquireOp, PoolOp.acquireOp,
          PoolOp.releaseOp ([7, 8, 9] : Vec3)], some 37⟩).2⟩

/-! ## Helper lemmas about the write-three-slots pattern -/

theorem getD_set3 (w : Vec3) (hw : 3 ≤ w.length) (x y z : ℝ) :
    (((w.set 0 x).set 1 y).set 2 z).getD 0 0 = x ∧
      (((w.set 0 x).set 1 y).set 2 z).getD 1 0 = y ∧
      (((w.set 0 x).set 1 y).set 2 z).getD 2 0 = z := by
  rcases w with _ | ⟨a, w⟩
  · simp at hw
  rcases w with _ | ⟨b, w⟩
  · simp at hw
  rcases w with _ | ⟨c, w⟩
  · simp at hw
  simp

theorem length_set3 (w : Vec3) (x y z : ℝ) :
    (((w.set 0 x).set 1 y).set 2 z).length = w.length := by
  simp

theorem getD_set3_ge (w : Vec3) (x y z : ℝ) (i : ℕ) (hi : 3 ≤ i) :
    (((w.set 0 x).set 1 y).set 2 z).getD i 0 = w.getD i 0 := by
  rw [List.getD_eq_getElem?_getD, List.getD_eq_getElem?_getD,
    List.getElem?_set_ne (by omega), List.getElem?_set_ne (by omega),
    List.getElem?_set_ne (by omega)]

/-- C7: `cross3To(out, a, b)` writes the 3D cross product of the
pre-call values of `a` and `b` into `out`'s first three components, for
every output buffer — in particular when `out` is the very buffer `a`
or the very buffer `b` (the source reads all components into locals
before the first write, so the aliased calls produce the same values). -/
theorem cross3To_writes_cross_product (a b : Vec3) (ha : 3 ≤ a.length)
    (hb : 3 ≤ b.length) :
    (∀ out : Vec3, 3 ≤ out.length →
      (cross3To out a b).getD 0 0 =
          a.getD 1 0 * b.getD 2 0 - a.getD 2 0 * b.getD 1 0 ∧
        (cross3To out a b).getD 1 0 =
          a.getD 2 0 * b.getD 0 0 - a.getD 0 0 * b.getD 2 0 ∧
        (cross3To out a b).getD 2 0 =
          a.getD 0 0 * b.getD 1 0 - a.getD 1 0 * b.getD 0 0) ∧
      ((cross3To a a b).getD 0 0 =
          a.getD 1 0 * b.getD 2 0 - a.getD 2 0 * b.getD 1 0 ∧
        (cross3To a a b).getD 1 0 =
          a.getD 2 0 * b.getD 0 0 - a.getD 0 0 * b.getD 2 0 ∧
        (cross3To a a b).getD 2 0 =
          a.getD 0 0 * b.getD 1 0 - a.getD 1 0 * b.getD 0 0) ∧
      ((cross3To b a b).getD 0 0 =
          a.getD 1 0 * b.getD 2 0 - a.getD 2 0 * b.getD 1 0 ∧
        (cross3To b a b).getD 1 0 =
          a.getD 2 0 * b.getD 0 0 - a.getD 0 0 * b.getD 2 0 ∧
        (cross3To b a b).getD 2 0 =
          a.getD 0 0 * b.getD 1 0 - a.getD 1 0 * b.getD 0 0) := by
  have main : ∀ out : Vec3, 3 ≤ out.length →
      (cross3To out a b).getD 0 0 =
          a.getD 1 0 * b.getD 2 0 - a.getD 2 0 * b.getD 1 0 ∧
        (cross3To out a b).getD 1 0 =
          a.getD 2 0 * b.getD 0 0 - a.getD 0 0 * b.getD 2 0 ∧
        (cross3To out a b).getD 2 0 =
          a.getD 0 0 * b.getD 1 0 - a.getD 1 0 * b.getD 0 0 := by
    intro out hout
    exact getD_set3 out hout _ _ _
  exact ⟨main, main a ha, main b hb⟩

/-- Witness for C7 at `a = [1,0,0]`, `b = [0,1,0]`. -/
theorem cross3To_writes_cross_product_witness :
    3 ≤ ([1, 0, 0] : Vec3).length ∧ 3 ≤ ([0, 1, 0] : Vec3).length ∧
      (cross3To ([9, 9, 9] : Vec3) [1, 0, 0] [0, 1, 0]).getD 2 0 =
        ([1, 0, 0] : Vec3).getD 0 0 * ([0, 1, 0] : Vec3).getD 1 0 -
          ([1, 0, 0] : Vec3).getD 1 0 * ([0, 1, 0] : Vec3).getD 0 0 :=
  ⟨by simp, by simp,
    ((cross3To_writes_cross_product [1, 0, 0] [0, 1, 0] (by simp)
          (by simp)).1 ([9, 9, 9] : Vec3) (by simp)).2.2⟩

/-- C10: each `*To`-style writer mutates `out` in place — the result has
the same length as `out` and agrees with `out` on every index ≥ 3 — and,
the inputs being passed by value in this embedding, the input vectors
are untouched by construction. -/
theorem writers_touch_only_first_three (out a b v src : Vec3)
    (x y z s : ℝ) (_hout : 3 ≤ out.length) :
    ((set3 out x y z).length = out.length ∧
        ∀ i, 3 ≤ i → (set3 out x y z).getD i 0 = out.getD i 0) ∧
      ((copy3 out src).length = out.length ∧
        ∀ i, 3 ≤ i → (copy3 out src).getD i 0 = out.getD i 0) ∧
      ((add3To out a b).length = out.length ∧
        ∀ i, 3 ≤ i → (add3To out a b).getD i 0 = out.getD i 0) ∧
      ((sub3To out a b).length = out.length ∧
        ∀ i, 3 ≤ i → (sub3To out a b).getD i 0 = out.getD i 0) ∧
      ((scale3To out v s).length = out.length ∧
        ∀ i, 3 ≤ i → (scale3To out v s).getD i 0 = out.getD i 0) ∧
      ((cross3To out a b).length = out.length ∧
        ∀ i, 3 ≤ i → (cross3To out a b).getD i 0 = out.getD i 0) :=
  ⟨⟨length_set3 out _ _ _, fun i hi => getD_set3_ge out _ _ _ i hi⟩,
    ⟨length_set3 out _ _ _, fun i hi => getD_set3_ge out _ _ _ i hi⟩,
    ⟨length_set3 out _ _ _, fun i hi => getD_set3_ge out _ _ _ i hi⟩,
    ⟨length_set3 out _ _ _, fun i hi => getD_set3_ge out _ _ _ i hi⟩,
    ⟨length_set3 out _ _ _, fun i hi => getD_set3_ge out _ _ _ i hi⟩,
    ⟨length_set3 out _ _ _, fun i hi => getD_set3_ge out _ _ _ i hi⟩⟩

/-- Witness for C10 at a length-4 output buffer. -/
theorem writers_touch_only_first_three_witness :
    3 ≤ ([1, 2, 3, 4] : Vec3).length ∧
      (add3To ([1, 2, 3, 4] : Vec3) [1, 0, 0] [0, 1, 0]).length =
          ([1, 2, 3, 4] : Vec3).length ∧
      (add3To ([1, 2, 3, 4] : Vec3) [1, 0, 0] [0, 1, 0]).getD 3 0 =
        ([1, 2, 3, 4] : Vec3).getD 3 0 :=
  ⟨by simp,
    (writers_touch_only_first_three ([1, 2, 3, 4] : Vec3) [1, 0, 0]
          [0, 1, 0] [0, 0, 0] [0, 0, 0] 0 0 0 0 (by simp)).2.2.1.1,
    (writers_touch_only_first_three ([1, 2, 3, 4] : Vec3) [1, 0, 0]
          [0, 1, 0] [0, 0, 0] [0, 0, 0] 0 0 0 0 (by simp)).2.2.1.2 3
      (by simp)⟩

/-- C6: if `lenSq3 v ≤ 0` (in particular for `v = [0,0,0]`),
`normalize3InPlace` returns `v` with every component unchanged, taking
the guard branch that performs no division; otherwise it scales the
first three components by `1 / sqrt (lenSq3 v)` and the squared length
of the result is exactly `1` (the real-arithmetic idealization of the
floating-point `≈ 1`). -/
theorem normalize3InPlace_spec (v : Vec3) (h : 3 ≤ v.length) :
    (lenSq3 v ≤ 0 → normalize3InPlace v = v) ∧
      (0 < lenSq3 v →
        ((normalize3InPlace v).getD 0 0 =
            v.getD 0 0 * (1 / Real.sqrt (lenSq3 v)) ∧
          (normalize3InPlace v).getD 1 0 =
            v.getD 1 0 * (1 / Real.sqrt (lenSq3 v)) ∧
          (normalize3InPlace v).getD 2 0 =
            v.getD 2 0 * (1 / Real.sqrt (lenSq3 v))) ∧
          lenSq3 (normalize3InPlace v) = 1) := by
  rcases v with _ | ⟨a, v⟩
  · simp at h
  rcases v with _ | ⟨b, v⟩
  · simp at h
  rcases v with _ | ⟨c, v⟩
  · simp at h
  constructor
  · intro hle
    simp only [normalize3InPlace]
    rw [if_pos hle]
  · intro hpos
    have hne : ¬lenSq3 (a :: b :: c :: v) ≤ 0 := not_le.mpr hpos
    have hL : lenSq3 (a :: b :: c :: v) = a * a + b * b + c * c := by
      simp [lenSq3]
    have hpos' : 0 < a * a + b * b + c * c := hL ▸ hpos
    simp only [normalize3InPlace]
    rw [if_neg hne]
    simp only [lenSq3, List.getD_cons_zero, List.getD_cons_succ,
      List.set_cons_zero, List.set_cons_succ]
    refine ⟨⟨trivial, trivial, trivial⟩, ?_⟩
    have hs : Real.sqrt (a * a + b * b + c * c) *
        Real.sqrt (a * a + b * b + c * c) = a * a + b * b + c * c :=
      Real.mul_self_sqrt (le_of_lt hpos')
    have hsne : Real.sqrt (a * a + b * b + c * c) ≠ 0 :=
      ne_of_gt (Real.sqrt_pos.mpr hpos')
    field_simp

/-- Witness for C6 at `v = [1, 0, 0]` (unit vector, positive branch). -/
theorem normalize3InPlace_spec_witness :
    3 ≤ ([1, 0, 0] : Vec3).length ∧
      (lenSq3 [1, 0, 0] ≤ 0 → normalize3InPlace [1, 0, 0] = [1, 0, 0]) ∧
      (0 < lenSq3 ([1, 0, 0] : Vec3) →
        ((normalize3InPlace [1, 0, 0]).getD 0 0 =
            ([1, 0, 0] : Vec3).getD 0 0 *
              (1 / Real.sqrt (lenSq3 [1, 0, 0])) ∧
          (normalize3InPlace [1, 0, 0]).getD 1 0 =
            ([1, 0, 0] : Vec3).getD 1 0 *
              (1 / Real.sqrt (lenSq3 [1, 0, 0])) ∧
          (normalize3InPlace [1, 0, 0]).getD 2 0 =
            ([1, 0, 0] : Vec3).getD 2 0 *
              (1 / Real.sqrt (lenSq3 [1, 0, 0]))) ∧
          lenSq3 (normalize3InPlace [1, 0, 0]) = 1) :=
  ⟨by simp, normalize3InPlace_spec ([1, 0, 0] : Vec3) (by simp)⟩

end render
